import Mathlib

/-! Verification development for the crash-game backend (src/index.js):
crash-point generation, round backlog maintenance, live-score progression
and the broadcast protocol, embedded shallowly over rationals and lists.
JavaScript numbers are modelled as rationals; each call of Math.random is
modelled as an explicit input in the interval from 0 inclusive to 1
exclusive; toFixed(2) followed by unary plus is modelled as rounding to a
multiple of 1/100. -/

/-- Rounding to 2 decimal places, as produced by the source idiom
plus-sign x.toFixed(2).  All values rounded in the source are nonnegative,
so round-half-away-from-zero coincides with round-half-up. -/
def round2 (q : ℚ) : ℚ := (Int.floor (100 * q + 1/2) : ℚ) / 100

/-- The random draws a single call of generateCrashPoint may consume, each
one value of Math.random in the interval from 0 inclusive to 1 exclusive:
coin is the draw compared to 0.3, high the draw for the high-value branch,
roll the draw multiplied by 100 for band classification, band the draw for
the value inside a band. -/
structure GenDraws where
  coin : ℚ
  high : ℚ
  roll : ℚ
  band : ℚ
  deriving DecidableEq

/-- Every draw lies in the half-open unit interval, as Math.random does. -/
def GenDraws.Valid (d : GenDraws) : Prop :=
  0 ≤ d.coin ∧ d.coin < 1 ∧ 0 ≤ d.high ∧ d.high < 1 ∧
    0 ≤ d.roll ∧ d.roll < 1 ∧ 0 ≤ d.band ∧ d.band < 1

instance (d : GenDraws) : Decidable d.Valid := by
  unfold GenDraws.Valid; infer_instance

/-- generateCrashPoint from src/index.js.  The global crashCounter is passed
in and the updated counter is returned alongside the crash point: the source
first increments the counter; if the incremented counter lies in the range 7
to 15 inclusive and the coin draw is below 0.3 it resets the counter to 0 and
returns a high value from the draw times 30 plus 20; otherwise it classifies
a roll in the interval from 0 to 100 into four bands. -/
def generateCrashPoint (crashCounter : ℕ) (d : GenDraws) : ℕ × ℚ :=
  let c := crashCounter + 1
  if 7 ≤ c ∧ c ≤ 15 ∧ d.coin < 3/10 then
    (0, round2 (d.high * 30 + 20))
  else
    let roll := d.roll * 100
    if roll < 55 then (c, round2 (1 + d.band))
    else if roll < 80 then (c, round2 (d.band * 8 + 2))
    else if roll < 95 then (c, round2 (d.band * 20 + 10))
    else (c, round2 (d.band * 20 + 30))

/-- The guard of the high-value branch of generateCrashPoint, on the
already-incremented counter value. -/
def highBranch (crashCounter : ℕ) (d : GenDraws) : Prop :=
  7 ≤ crashCounter + 1 ∧ crashCounter + 1 ≤ 15 ∧ d.coin < 3/10

/-- Iterating generateCrashPoint, keeping only the counter: the counter
after n successive calls fed by the draw stream ds. -/
def genCounterIter : ℕ → ℕ → (ℕ → GenDraws) → ℕ
  | 0, c, _ => c
  | n + 1, c, ds => genCounterIter n (generateCrashPoint c (ds 0)).1 (fun i => ds (i + 1))

lemma int_le_round2 (n : ℤ) {x : ℚ} (h : (n : ℚ) ≤ x) : (n : ℚ) ≤ round2 x := by
  unfold round2
  rw [le_div_iff₀ (by norm_num : (0:ℚ) < 100)]
  have : (n * 100 : ℤ) ≤ Int.floor (100 * x + 1/2) := by
    rw [Int.le_floor]
    push_cast
    linarith
  exact_mod_cast this

lemma round2_le_int (n : ℤ) {x : ℚ} (h : x < (n : ℚ)) : round2 x ≤ (n : ℚ) := by
  unfold round2
  rw [div_le_iff₀ (by norm_num : (0:ℚ) < 100)]
  have h2 : Int.floor (100 * x + 1/2) < (n * 100 : ℤ) + 1 := by
    rw [Int.floor_lt]
    push_cast
    linarith
  have : Int.floor (100 * x + 1/2) ≤ (n * 100 : ℤ) := Int.lt_add_one_iff.mp h2
  exact_mod_cast this

lemma lt_round2_add {x δ : ℚ} (h : 1/100 ≤ δ) : x < round2 (x + δ) := by
  unfold round2
  rw [lt_div_iff₀ (by norm_num : (0:ℚ) < 100)]
  have h2 : (100 * (x + δ) + 1/2) - 1 < (Int.floor (100 * (x + δ) + 1/2) : ℚ) :=
    Int.sub_one_lt_floor _
  linarith

lemma round2_round2 (x : ℚ) : round2 (round2 x) = round2 x := by
  unfold round2
  have h : (100 : ℚ) * ((Int.floor (100 * x + 1/2) : ℚ) / 100) + 1/2 =
      1/2 + (Int.floor (100 * x + 1/2) : ℚ) := by ring
  rw [h, Int.floor_add_int]
  norm_num

lemma round2_mono {x y : ℚ} (h : x ≤ y) : round2 x ≤ round2 y := by
  unfold round2
  have : Int.floor (100 * x + 1/2) ≤ Int.floor (100 * y + 1/2) :=
    Int.floor_le_floor (by linarith)
  have h2 : (Int.floor (100 * x + 1/2) : ℚ) ≤ (Int.floor (100 * y + 1/2) : ℚ) := by
    exact_mod_cast this
  linarith

lemma round2_mem {x : ℚ} (m n : ℤ) {a b : ℚ} (ha : (m : ℚ) = a) (hb : (n : ℚ) = b)
    (h1 : a ≤ x) (h2 : x < b) : a ≤ round2 x ∧ round2 x ≤ b := by
  subst ha hb
  exact ⟨int_le_round2 m h1, round2_le_int n h2⟩

lemma gen_counter_of_not_high {c : ℕ} {d : GenDraws} (h : ¬ highBranch c d) :
    (generateCrashPoint c d).1 = c + 1 := by
  unfold highBranch at h
  simp only [generateCrashPoint]
  rw [if_neg h]
  split_ifs <;> rfl

/-- C1 counterexample: the crash point is not always strictly greater than
1.00.  With all four draws equal to 0 (a possible value of Math.random) the
band roll is 0, the first band is taken, and the result is exactly 1.00. -/
theorem c1_strict_lower_bound_fails :
    GenDraws.Valid ⟨0, 0, 0, 0⟩ ∧
    generateCrashPoint 0 ⟨0, 0, 0, 0⟩ = (1, 1) ∧
    ¬ (1 < (generateCrashPoint 0 ⟨0, 0, 0, 0⟩).2) := by
  refine ⟨by norm_num [GenDraws.Valid], by norm_num [generateCrashPoint, round2], ?_⟩
  norm_num [generateCrashPoint, round2]

/-- C1 (amended): for every counter value and all valid random draws, the
crash point returned by generateCrashPoint is at least 1.00 (not strictly
greater: 1.00 itself is achievable), at most 50.00, and is a fixed point of
rounding to 2 decimal places. -/
theorem c1_crash_point_range (c : ℕ) (d : GenDraws) (hd : d.Valid) :
    1 ≤ (generateCrashPoint c d).2 ∧ (generateCrashPoint c d).2 ≤ 50 ∧
    round2 (generateCrashPoint c d).2 = (generateCrashPoint c d).2 := by
  obtain ⟨hc0, hc1, hh0, hh1, hr0, hr1, hb0, hb1⟩ := hd
  simp only [generateCrashPoint]
  split_ifs with h1 h2 h3 h4
  · obtain ⟨hl, hu⟩ := round2_mem 20 50 (by norm_num) (by norm_num)
      (by linarith : (20:ℚ) ≤ d.high * 30 + 20) (by linarith : d.high * 30 + 20 < 50)
    exact ⟨by linarith, hu, round2_round2 _⟩
  · obtain ⟨hl, hu⟩ := round2_mem 1 2 (by norm_num) (by norm_num)
      (by linarith : (1:ℚ) ≤ 1 + d.band) (by linarith : 1 + d.band < 2)
    exact ⟨hl, by linarith, round2_round2 _⟩
  · obtain ⟨hl, hu⟩ := round2_mem 2 10 (by norm_num) (by norm_num)
      (by linarith : (2:ℚ) ≤ d.band * 8 + 2) (by linarith : d.band * 8 + 2 < 10)
    exact ⟨by linarith, by linarith, round2_round2 _⟩
  · obtain ⟨hl, hu⟩ := round2_mem 10 30 (by norm_num) (by norm_num)
      (by linarith : (10:ℚ) ≤ d.band * 20 + 10) (by linarith : d.band * 20 + 10 < 30)
    exact ⟨by linarith, by linarith, round2_round2 _⟩
  · obtain ⟨hl, hu⟩ := round2_mem 30 50 (by norm_num) (by norm_num)
      (by linarith : (30:ℚ) ≤ d.band * 20 + 30) (by linarith : d.band * 20 + 30 < 50)
    exact ⟨by linarith, hu, round2_round2 _⟩

theorem c1_crash_point_range_witness :
    1 ≤ (generateCrashPoint 3 ⟨0, 0, 1/2, 1/2⟩).2 ∧
    (generateCrashPoint 3 ⟨0, 0, 1/2, 1/2⟩).2 ≤ 50 ∧
    round2 (generateCrashPoint 3 ⟨0, 0, 1/2, 1/2⟩).2 =
      (generateCrashPoint 3 ⟨0, 0, 1/2, 1/2⟩).2 :=
  c1_crash_point_range 3 ⟨0, 0, 1/2, 1/2⟩ (by norm_num [GenDraws.Valid])

/-- C2: when the incremented counter lies in the range 7 to 15 inclusive and
the weighted coin-flip draw is below 0.3, generateCrashPoint resets the
counter to 0 and returns the high draw mapped affinely onto the interval
from 20 to 50 and rounded to 2 decimal places, a value between 20.00 and
50.00. -/
theorem c2_high_value_branch (c : ℕ) (d : GenDraws) (hd : d.Valid)
    (h7 : 7 ≤ c + 1) (h15 : c + 1 ≤ 15) (hcoin : d.coin < 3/10) :
    generateCrashPoint c d = (0, round2 (d.high * 30 + 20)) ∧
    20 ≤ (generateCrashPoint c d).2 ∧ (generateCrashPoint c d).2 ≤ 50 := by
  obtain ⟨hc0, hc1, hh0, hh1, hr0, hr1, hb0, hb1⟩ := hd
  have hb : 7 ≤ c + 1 ∧ c + 1 ≤ 15 ∧ d.coin < 3/10 := ⟨h7, h15, hcoin⟩
  simp only [generateCrashPoint]
  rw [if_pos hb]
  obtain ⟨hl, hu⟩ := round2_mem 20 50 (by norm_num) (by norm_num)
    (by linarith : (20:ℚ) ≤ d.high * 30 + 20) (by linarith : d.high * 30 + 20 < 50)
  exact ⟨rfl, hl, hu⟩

theorem c2_high_value_branch_witness :
    generateCrashPoint 9 ⟨0, 1/2, 0, 0⟩ = (0, round2 ((1:ℚ)/2 * 30 + 20)) ∧
    20 ≤ (generateCrashPoint 9 ⟨0, 1/2, 0, 0⟩).2 ∧
    (generateCrashPoint 9 ⟨0, 1/2, 0, 0⟩).2 ≤ 50 :=
  c2_high_value_branch 9 ⟨0, 1/2, 0, 0⟩ (by norm_num [GenDraws.Valid]) (by decide)
    (by decide) (by norm_num)

/-- C3: when the high-value branch is not taken, the band roll (the roll
draw times 100) classifies the result into four bands with the stated
boundary-inclusive ranges after rounding, and the counter is incremented,
not reset. -/
theorem c3_band_classification (c : ℕ) (d : GenDraws) (hd : d.Valid)
    (hnb : ¬ highBranch c d) :
    (generateCrashPoint c d).1 = c + 1 ∧
    (d.roll * 100 < 55 →
      (generateCrashPoint c d).2 = round2 (1 + d.band) ∧
      1 ≤ (generateCrashPoint c d).2 ∧ (generateCrashPoint c d).2 ≤ 2) ∧
    (55 ≤ d.roll * 100 → d.roll * 100 < 80 →
      (generateCrashPoint c d).2 = round2 (d.band * 8 + 2) ∧
      2 ≤ (generateCrashPoint c d).2 ∧ (generateCrashPoint c d).2 ≤ 10) ∧
    (80 ≤ d.roll * 100 → d.roll * 100 < 95 →
      (generateCrashPoint c d).2 = round2 (d.band * 20 + 10) ∧
      10 ≤ (generateCrashPoint c d).2 ∧ (generateCrashPoint c d).2 ≤ 30) ∧
    (95 ≤ d.roll * 100 →
      (generateCrashPoint c d).2 = round2 (d.band * 20 + 30) ∧
      30 ≤ (generateCrashPoint c d).2 ∧ (generateCrashPoint c d).2 ≤ 50) := by
  obtain ⟨hc0, hc1, hh0, hh1, hr0, hr1, hb0, hb1⟩ := hd
  unfold highBranch at hnb
  refine ⟨gen_counter_of_not_high (by unfold highBranch; exact hnb), ?_, ?_, ?_, ?_⟩
  · intro h55
    simp only [generateCrashPoint]
    rw [if_neg hnb, if_pos h55]
    obtain ⟨hl, hu⟩ := round2_mem 1 2 (by norm_num) (by norm_num)
      (by linarith : (1:ℚ) ≤ 1 + d.band) (by linarith : 1 + d.band < 2)
    exact ⟨rfl, hl, hu⟩
  · intro h55 h80
    simp only [generateCrashPoint]
    rw [if_neg hnb, if_neg (by linarith : ¬ d.roll * 100 < 55), if_pos h80]
    obtain ⟨hl, hu⟩ := round2_mem 2 10 (by norm_num) (by norm_num)
      (by linarith : (2:ℚ) ≤ d.band * 8 + 2) (by linarith : d.band * 8 + 2 < 10)
    exact ⟨rfl, hl, hu⟩
  · intro h80 h95
    simp only [generateCrashPoint]
    rw [if_neg hnb, if_neg (by linarith : ¬ d.roll * 100 < 55),
      if_neg (by linarith : ¬ d.roll * 100 < 80), if_pos h95]
    obtain ⟨hl, hu⟩ := round2_mem 10 30 (by norm_num) (by norm_num)
      (by linarith : (10:ℚ) ≤ d.band * 20 + 10) (by linarith : d.band * 20 + 10 < 30)
    exact ⟨rfl, hl, hu⟩
  · intro h95
    simp only [generateCrashPoint]
    rw [if_neg hnb, if_neg (by linarith : ¬ d.roll * 100 < 55),
      if_neg (by linarith : ¬ d.roll * 100 < 80), if_neg (by linarith : ¬ d.roll * 100 < 95)]
    obtain ⟨hl, hu⟩ := round2_mem 30 50 (by norm_num) (by norm_num)
      (by linarith : (30:ℚ) ≤ d.band * 20 + 30) (by linarith : d.band * 20 + 30 < 50)
    exact ⟨rfl, hl, hu⟩

theorem c3_band_classification_witness :
    (generateCrashPoint 2 ⟨1/2, 0, 3/5, 1/4⟩).1 = 2 + 1 ∧
    ((3:ℚ)/5 * 100 < 55 →
      (generateCrashPoint 2 ⟨1/2, 0, 3/5, 1/4⟩).2 = round2 (1 + 1/4) ∧
      1 ≤ (generateCrashPoint 2 ⟨1/2, 0, 3/5, 1/4⟩).2 ∧
      (generateCrashPoint 2 ⟨1/2, 0, 3/5, 1/4⟩).2 ≤ 2) ∧
    (55 ≤ (3:ℚ)/5 * 100 → (3:ℚ)/5 * 100 < 80 →
      (generateCrashPoint 2 ⟨1/2, 0, 3/5, 1/4⟩).2 = round2 ((1:ℚ)/4 * 8 + 2) ∧
      2 ≤ (generateCrashPoint 2 ⟨1/2, 0, 3/5, 1/4⟩).2 ∧
      (generateCrashPoint 2 ⟨1/2, 0, 3/5, 1/4⟩).2 ≤ 10) ∧
    (80 ≤ (3:ℚ)/5 * 100 → (3:ℚ)/5 * 100 < 95 →
      (generateCrashPoint 2 ⟨1/2, 0, 3/5, 1/4⟩).2 = round2 ((1:ℚ)/4 * 20 + 10) ∧
      10 ≤ (generateCrashPoint 2 ⟨1/2, 0, 3/5, 1/4⟩).2 ∧
      (generateCrashPoint 2 ⟨1/2, 0, 3/5, 1/4⟩).2 ≤ 30) ∧
    (95 ≤ (3:ℚ)/5 * 100 →
      (generateCrashPoint 2 ⟨1/2, 0, 3/5, 1/4⟩).2 = round2 ((1:ℚ)/4 * 20 + 30) ∧
      30 ≤ (generateCrashPoint 2 ⟨1/2, 0, 3/5, 1/4⟩).2 ∧
      (generateCrashPoint 2 ⟨1/2, 0, 3/5, 1/4⟩).2 ≤ 50) :=
  c3_band_classification 2 ⟨1/2, 0, 3/5, 1/4⟩ (by norm_num [GenDraws.Valid])
    (by unfold highBranch; norm_num)

lemma genCounterIter_add (n : ℕ) :
    ∀ c, 15 < c → ∀ ds, genCounterIter n c ds = c + n := by
  induction n with
  | zero => intro c _ ds; rfl
  | succ n ih =>
      intro c hc ds
      show genCounterIter n (generateCrashPoint c (ds 0)).1 _ = c + (n + 1)
      have hnb : ¬ highBranch c (ds 0) := by
        unfold highBranch
        omega
      rw [gen_counter_of_not_high hnb, ih (c + 1) (by omega)]
      omega

/-- C10: once the counter exceeds 15, the high-value branch can never fire
again: its guard requires the incremented counter to be at most 15, every
call just increments the counter by 1, and after n further calls the
counter is the starting value plus n, never 0 again. -/
theorem c10_counter_runaway (c : ℕ) (hc : 15 < c) :
    (∀ d, ¬ highBranch c d) ∧
    (∀ d, (generateCrashPoint c d).1 = c + 1) ∧
    (∀ n ds, genCounterIter n c ds = c + n) ∧
    (∀ n ds, genCounterIter n c ds ≠ 0) := by
  have h1 : ∀ d, ¬ highBranch c d := by
    intro d hb
    unfold highBranch at hb
    omega
  refine ⟨h1, fun d => gen_counter_of_not_high (h1 d), ?_, ?_⟩
  · intro n ds
    exact genCounterIter_add n c hc ds
  · intro n ds
    rw [genCounterIter_add n c hc ds]
    omega

theorem c10_counter_runaway_witness :
    (∀ d, ¬ highBranch 16 d) ∧
    (∀ d, (generateCrashPoint 16 d).1 = 16 + 1) ∧
    (∀ n ds, genCounterIter n 16 ds = 16 + n) ∧
    (∀ n ds, genCounterIter n 16 ds ≠ 0) :=
  c10_counter_runaway 16 (by decide)

/-- A completed-round log row of the luckyjet_round_log table: the
auto-increment id tracks insertion order. -/
structure LogEntry where
  id : ℕ
  roundId : ℕ
  crashPoint : ℚ
  deriving DecidableEq

/-- The events the server emits over the socket, in emission order. -/
inductive Ev where
  | roundStart (roundId : ℕ) (crashPoint : ℚ) (previousRounds : List LogEntry)
  | liveScore (value : ℚ)
  | crashed (crashPoint : ℚ)
  deriving DecidableEq

/-- The transient per-round live state: the liveScore global, the isCrashed
latch, and whether clearInterval has been called on the tick. -/
structure LiveState where
  liveScore : ℚ
  isCrashed : Bool
  stopped : Bool
  deriving DecidableEq

/-- The tiered additive step the tick adds to liveScore, from the if-else
ladder of the interval callback in startGameLoop. -/
def stepSize (s : ℚ) : ℚ :=
  if s < 3/2 then 1/100
  else if s < 3 then 2/100
  else if s < 5 then 5/100
  else if s < 10 then 1/10
  else if s < 50 then 15/100
  else 2/10

/-- One liveScore update: add the tiered step, then round to 2 decimal
places (liveScore = plus-sign liveScore.toFixed(2)). -/
def tickStep (s : ℚ) : ℚ := round2 (s + stepSize s)

/-- One firing of the 50-time-unit interval callback for a round with crash
point cp: if the crashed latch is set the callback returns at once emitting
nothing; otherwise it advances and broadcasts liveScore and, when the new
score has reached cp, sets the latch, broadcasts the crash point and clears
the interval. -/
def tick (cp : ℚ) (st : LiveState) : LiveState × List Ev :=
  if st.isCrashed then (st, [])
  else
    let s1 := tickStep st.liveScore
    if cp ≤ s1 then
      (⟨s1, true, true⟩, [Ev.liveScore s1, Ev.crashed cp])
    else
      (⟨s1, st.isCrashed, st.stopped⟩, [Ev.liveScore s1])

/-- n successive firings of the interval callback, collecting the emitted
events in order. -/
def runTicks (cp : ℚ) : ℕ → LiveState → LiveState × List Ev
  | 0, st => (st, [])
  | n + 1, st =>
      let p := tick cp st
      let q := runTicks cp n p.1
      (q.1, p.2 ++ q.2)

/-- The liveScore value after k ticks from score s, ignoring the crash
check: iterated tickStep. -/
def scoreSeq (s : ℚ) : ℕ → ℚ
  | 0 => s
  | k + 1 => tickStep (scoreSeq s k)

/-- The k liveScore broadcasts emitted by the first k ticks from score s. -/
def liveEvs (s : ℚ) : ℕ → List Ev
  | 0 => []
  | k + 1 => Ev.liveScore (tickStep s) :: liveEvs (tickStep s) k

lemma scoreSeq_shift (s : ℚ) (k : ℕ) :
    scoreSeq (tickStep s) k = scoreSeq s (k + 1) := by
  induction k with
  | zero => rfl
  | succ k ih => simp only [scoreSeq, ih]

lemma stepSize_ge (s : ℚ) : 1/100 ≤ stepSize s := by
  unfold stepSize
  split_ifs <;> norm_num

lemma lt_tickStep (s : ℚ) : s < tickStep s :=
  lt_round2_add (stepSize_ge s)

lemma tick_crashed {cp : ℚ} {st : LiveState} (h : st.isCrashed = true) :
    tick cp st = (st, []) := by
  unfold tick
  rw [if_pos h]

lemma runTicks_crashed (cp : ℚ) (st : LiveState) (h : st.isCrashed = true)
    (n : ℕ) : runTicks cp n st = (st, []) := by
  induction n with
  | zero => rfl
  | succ n ih =>
      simp only [runTicks, tick_crashed h, ih]
      rfl

lemma runTicks_no_cross {cp : ℚ} (n : ℕ) :
    ∀ s b, (∀ j, j ≤ n → 1 ≤ j → scoreSeq s j < cp) →
    runTicks cp n ⟨s, false, b⟩ = (⟨scoreSeq s n, false, b⟩, liveEvs s n) := by
  induction n with
  | zero => intro s b _; rfl
  | succ n ih =>
      intro s b h
      have h1 : tickStep s < cp := h 1 (by omega) (by omega)
      have ht : tick cp ⟨s, false, b⟩ =
          (⟨tickStep s, false, b⟩, [Ev.liveScore (tickStep s)]) := by
        unfold tick
        simp only [if_neg (by simp : ¬ (false = true))]
        rw [if_neg (by linarith : ¬ cp ≤ tickStep s)]
      have h2 : ∀ j, j ≤ n → 1 ≤ j → scoreSeq (tickStep s) j < cp := by
        intro j hj h1j
        rw [scoreSeq_shift]
        exact h (j + 1) (by omega) (by omega)
      simp only [runTicks, ht, ih (tickStep s) b h2]
      simp [scoreSeq_shift, liveEvs]

lemma runTicks_first_cross {cp : ℚ} (k : ℕ) :
    ∀ s b n, 1 ≤ k → k ≤ n → cp ≤ scoreSeq s k →
    (∀ j, j < k → 1 ≤ j → scoreSeq s j < cp) →
    runTicks cp n ⟨s, false, b⟩ =
      (⟨scoreSeq s k, true, true⟩, liveEvs s k ++ [Ev.crashed cp]) := by
  induction k with
  | zero => intro s b n h1; omega
  | succ k ih =>
      intro s b n _ hkn hcross hfirst
      obtain ⟨m, rfl⟩ : ∃ m, n = m + 1 := ⟨n - 1, by omega⟩
      rcases Nat.eq_zero_or_pos k with hk0 | hkpos
      · subst hk0
        have hc : cp ≤ tickStep s := hcross
        have ht : tick cp ⟨s, false, b⟩ =
            (⟨tickStep s, true, true⟩, [Ev.liveScore (tickStep s), Ev.crashed cp]) := by
          unfold tick
          simp only [if_neg (by simp : ¬ (false = true))]
          rw [if_pos hc]
        simp only [runTicks, ht, runTicks_crashed cp ⟨tickStep s, true, true⟩ rfl m]
        simp [scoreSeq, liveEvs]
      · have h1 : tickStep s < cp := hfirst 1 (by omega) (by omega)
        have ht : tick cp ⟨s, false, b⟩ =
            (⟨tickStep s, false, b⟩, [Ev.liveScore (tickStep s)]) := by
          unfold tick
          simp only [if_neg (by simp : ¬ (false = true))]
          rw [if_neg (by linarith : ¬ cp ≤ tickStep s)]
        have hrec := ih (tickStep s) b m hkpos (by omega)
          (by rw [scoreSeq_shift]; exact hcross)
          (by
            intro j hj h1j
            rw [scoreSeq_shift]
            exact hfirst (j + 1) (by omega) (by omega))
        simp only [runTicks, ht, hrec]
        simp only [scoreSeq_shift, liveEvs]
        simp

lemma liveEvs_all_liveScore (s : ℚ) (k : ℕ) :
    ∀ e ∈ liveEvs s k, ∃ v, e = Ev.liveScore v := by
  induction k generalizing s with
  | zero => intro e he; cases he
  | succ k ih =>
      intro e he
      rcases List.mem_cons.mp he with rfl | he2
      · exact ⟨tickStep s, rfl⟩
      · exact ih (tickStep s) e he2

/-- A backlog row of the luckyjet_round table.  The auto-increment id is the
FIFO key; isRunning defaults to false on insert. -/
structure Round where
  id : ℕ
  roundId : ℕ
  crashPoint : ℚ
  isRunning : Bool
  deriving DecidableEq

/-- The two persistent tables.  Each list is kept in ascending id order,
which is insertion order, because ids are assigned from the auto-increment
counters nextRoundRowId and nextLogId. -/
structure DB where
  backlog : List Round
  nextRoundRowId : ℕ
  log : List LogEntry
  nextLogId : ℕ
  deriving DecidableEq

def emptyDB : DB := ⟨[], 1, [], 1⟩

/-- INSERT INTO luckyjet_round (roundId, crashPoint) VALUES (?, ?) with
isRunning defaulting to false. -/
def insertRound (db : DB) (roundId : ℕ) (cp : ℚ) : DB :=
  { db with
      backlog := db.backlog ++ [⟨db.nextRoundRowId, roundId, cp, false⟩],
      nextRoundRowId := db.nextRoundRowId + 1 }

/-- SELECT * FROM luckyjet_round ORDER BY id ASC LIMIT 1: with the backlog
list kept in ascending id order this is its first element. -/
def selectEarliest (db : DB) : Option Round := db.backlog.head?

/-- UPDATE luckyjet_round SET isRunning = true WHERE id = ?. -/
def markRunning (db : DB) (i : ℕ) : DB :=
  { db with
      backlog := db.backlog.map
        (fun r => if r.id = i then ⟨r.id, r.roundId, r.crashPoint, true⟩ else r) }

/-- DELETE FROM luckyjet_round WHERE id = ?. -/
def deleteRound (db : DB) (i : ℕ) : DB :=
  { db with backlog := db.backlog.filter (fun r => r.id != i) }

/-- INSERT INTO luckyjet_round_log (roundId, crashPoint) VALUES (?, ?). -/
def insertLog (db : DB) (roundId : ℕ) (cp : ℚ) : DB :=
  { db with
      log := db.log ++ [⟨db.nextLogId, roundId, cp⟩],
      nextLogId := db.nextLogId + 1 }

/-- maintainLogLimit from src/index.js: DELETE every log row whose id is not
among the 200 greatest.  On a list in ascending id order this keeps the
final 200 entries. -/
def maintainLogLimit (db : DB) : DB :=
  { db with log := db.log.drop (db.log.length - 200) }

/-- getLast20Rounds from src/index.js: SELECT * FROM luckyjet_round_log
ORDER BY id DESC LIMIT 20, i.e. the reversed log truncated to 20. -/
def getLast20Rounds (db : DB) : List LogEntry := db.log.reverse.take 20

/-- The body of the for-loop of prefillRounds, run n times: each pass picks
roundId = Date.now() + i * 1000 (now is the frozen clock value, i the loop
index), generates a crash point, and inserts the row. -/
def prefillLoop : ℕ → DB → ℕ → (ℕ → GenDraws) → ℕ → ℕ → DB × ℕ
  | 0, db, counter, _, _, _ => (db, counter)
  | n + 1, db, counter, ds, now, i =>
      let g := generateCrashPoint counter (ds i)
      prefillLoop n (insertRound db (now + i * 1000) g.2) g.1 ds now (i + 1)

/-- prefillRounds from src/index.js: count the backlog and insert
30 - count fresh rounds (none when the count is already 30 or more). -/
def prefillRounds (db : DB) (counter : ℕ) (ds : ℕ → GenDraws) (now : ℕ) :
    DB × ℕ :=
  prefillLoop (30 - db.backlog.length) db counter ds now 0

/-- The BacklogCheck step of the game loop: pull the earliest round; when
the backlog is empty, prefill it and retry the pull (the continue branch of
the while loop). -/
def backlogCheck (db : DB) (counter : ℕ) (ds : ℕ → GenDraws) (now : ℕ) :
    DB × ℕ × Option Round :=
  match selectEarliest db with
  | some r => (db, counter, some r)
  | none =>
      let p := prefillRounds db counter ds now
      (p.1, p.2, selectEarliest p.1)

/-- The RoundStart step: reset the live state (liveScore = 1.00, latch
cleared), mark the pulled round running, and broadcast roundStart with the
last 20 log entries. -/
def roundStart (db : DB) (r : Round) : DB × LiveState × List Ev :=
  let db2 := markRunning db r.id
  (db2, ⟨1, false, false⟩,
    [Ev.roundStart r.roundId r.crashPoint (getLast20Rounds db2)])

/-- The Settle step after a crash: delete the completed backlog row, append
its log entry, trim the log to 200, and insert one freshly generated
replacement round with roundId = Date.now(). -/
def settle (db : DB) (r : Round) (counter : ℕ) (d : GenDraws) (now : ℕ) :
    DB × ℕ :=
  let db1 := deleteRound db r.id
  let db2 := insertLog db1 r.roundId r.crashPoint
  let db3 := maintainLogLimit db2
  let g := generateCrashPoint counter d
  (insertRound db3 now g.2, g.1)

/-- The per-iteration inputs of the game loop that come from outside the
state: the random draws and clock value used by a refill, and the draw and
clock value used by the settle step. -/
structure Env where
  draws : ℕ → GenDraws
  fillNow : ℕ
  settleDraw : GenDraws
  settleNow : ℕ

/-- One iteration of the while loop of startGameLoop, tracking the two
tables and the generator counter: either the refill-and-continue branch, or
a full round (mark running, play to the crash, settle).  The tick callbacks
do not touch the tables. -/
def loopIter (db : DB) (counter : ℕ) (e : Env) : DB × ℕ :=
  match selectEarliest db with
  | none => prefillRounds db counter e.draws e.fillNow
  | some r => settle (roundStart db r).1 r counter e.settleDraw e.settleNow

/-- n iterations of the game loop from process start (empty tables, counter
0), the n-th iteration drawing its inputs from es n. -/
def runLoop : ℕ → (ℕ → Env) → DB × ℕ
  | 0, _ => (emptyDB, 0)
  | n + 1, es =>
      let p := runLoop n es
      loopIter p.1 p.2 (es n)

/-- The number of backlog rows with isRunning = true. -/
def runningCount (db : DB) : ℕ := db.backlog.countP (fun r => r.isRunning)

/-- The backlog state holding between loop iterations: no row is marked
running, row ids are distinct, and all ids are below the auto-increment
counter. -/
def LoopInv (db : DB) : Prop :=
  (∀ r ∈ db.backlog, r.isRunning = false) ∧
  (db.backlog.map Round.id).Nodup ∧
  (∀ r ∈ db.backlog, r.id < db.nextRoundRowId)

instance (db : DB) : Decidable (LoopInv db) := by
  unfold LoopInv; infer_instance

/-- The initData payload sent once to a newly connected socket. -/
structure InitData where
  roundId : Option ℕ
  crashPoint : Option ℚ
  previousRounds : List LogEntry
  liveScore : ℚ
  deriving DecidableEq

/-- The connection handler: emit initData built from the optional
currentRound global (roundId and crashPoint are null when no round is
active), the last 20 log entries, and the liveScore global. -/
def onConnection (db : DB) (currentRound : Option Round) (liveScore : ℚ) :
    InitData :=
  ⟨currentRound.map Round.roundId, currentRound.map Round.crashPoint,
    getLast20Rounds db, liveScore⟩

/-- C4: for a round whose crash point is first reached at tick k (the
liveScore after k ticks is the first to reach crashPoint), any run of n ≥ k
tick firings produces exactly the k liveScore broadcasts followed by one
single crashed broadcast carrying the crash point, sets the crashed latch,
and clears the interval; and from the crashed state any further firings
change nothing and emit nothing, so no liveScore broadcast follows the
crash. -/
theorem c4_crash_once (cp : ℚ) (n k : ℕ) (hk1 : 1 ≤ k) (hkn : k ≤ n)
    (hcross : cp ≤ scoreSeq 1 k)
    (hfirst : ∀ j, j < k → 1 ≤ j → scoreSeq 1 j < cp) :
    runTicks cp n ⟨1, false, false⟩ =
      (⟨scoreSeq 1 k, true, true⟩, liveEvs 1 k ++ [Ev.crashed cp]) ∧
    (∀ e ∈ liveEvs 1 k, ∃ v, e = Ev.liveScore v) ∧
    (∀ m, runTicks cp m ⟨scoreSeq 1 k, true, true⟩ =
      (⟨scoreSeq 1 k, true, true⟩, [])) := by
  refine ⟨runTicks_first_cross k 1 false n hk1 hkn hcross hfirst,
    liveEvs_all_liveScore 1 k, ?_⟩
  intro m
  exact runTicks_crashed cp ⟨scoreSeq 1 k, true, true⟩ rfl m

theorem c4_crash_once_witness :
    runTicks (21/20) 7 ⟨1, false, false⟩ =
      (⟨scoreSeq 1 5, true, true⟩, liveEvs 1 5 ++ [Ev.crashed (21/20)]) ∧
    (∀ e ∈ liveEvs 1 5, ∃ v, e = Ev.liveScore v) ∧
    (∀ m, runTicks (21/20) m ⟨scoreSeq 1 5, true, true⟩ =
      (⟨scoreSeq 1 5, true, true⟩, [])) :=
  c4_crash_once (21/20) 7 5 (by decide) (by decide)
    (by norm_num [scoreSeq, tickStep, stepSize, round2])
    (by
      intro j hj h1j
      interval_cases j <;> norm_num [scoreSeq, tickStep, stepSize, round2])

/-- C5: every tick advances liveScore by exactly the tiered additive step
determined by its current value, rounds the sum to 2 decimal places, and
broadcasts it as a liveScore event; the new score is strictly above the old
one, so the score sequence within a round is non-decreasing; and RoundStart
resets the live state to liveScore 1.00 with the latch cleared. -/
theorem c5_tick_progression (s : ℚ) (cp : ℚ) (b : Bool) (db : DB) (r : Round) :
    stepSize s = (if s < 3/2 then 1/100 else if s < 3 then 2/100
      else if s < 5 then 5/100 else if s < 10 then 1/10
      else if s < 50 then 15/100 else 2/10) ∧
    tickStep s = round2 (s + stepSize s) ∧
    (tick cp ⟨s, false, b⟩).2.head? = some (Ev.liveScore (tickStep s)) ∧
    s < tickStep s ∧
    (∀ k, scoreSeq s k ≤ scoreSeq s (k + 1)) ∧
    (roundStart db r).2.1.liveScore = 1 ∧
    (roundStart db r).2.1.isCrashed = false := by
  refine ⟨rfl, rfl, ?_, lt_tickStep s, ?_, rfl, rfl⟩
  · unfold tick
    simp only [if_neg (by simp : ¬ (false = true))]
    split_ifs <;> rfl
  · intro k
    exact le_of_lt (lt_tickStep (scoreSeq s k))

lemma insertRound_backlog_len (db : DB) (rid : ℕ) (cp : ℚ) :
    (insertRound db rid cp).backlog.length = db.backlog.length + 1 := by
  simp [insertRound]

lemma prefillLoop_backlog_len (n : ℕ) :
    ∀ db c ds now i,
      ((prefillLoop n db c ds now i).1).backlog.length = db.backlog.length + n := by
  induction n with
  | zero => intro db c ds now i; rfl
  | succ n ih =>
      intro db c ds now i
      show ((prefillLoop n (insertRound db (now + i * 1000)
        (generateCrashPoint c (ds i)).2) (generateCrashPoint c (ds i)).1
        ds now (i + 1)).1).backlog.length = db.backlog.length + (n + 1)
      rw [ih, insertRound_backlog_len]
      omega

/-- C6: when BacklogCheck finds the backlog empty it synchronously refills
it to exactly 30 rounds and the retried pull then succeeds; and across any
number of loop iterations from startup the backlog size, read as an
integer, never drops below 0. -/
theorem c6_backlog_refill (db : DB) (c : ℕ) (ds : ℕ → GenDraws) (now : ℕ)
    (h : db.backlog = []) :
    (backlogCheck db c ds now).1.backlog.length = 30 ∧
    (backlogCheck db c ds now).2.2.isSome = true ∧
    (∀ n es, (0 : ℤ) ≤ ((runLoop n es).1.backlog.length : ℤ)) := by
  have h0 : db.backlog.length = 0 := by rw [h]; rfl
  have hlen : (prefillRounds db c ds now).1.backlog.length = 30 := by
    unfold prefillRounds
    rw [prefillLoop_backlog_len]
    omega
  have hsel : selectEarliest db = none := by
    simp [selectEarliest, h]
  have hbc : backlogCheck db c ds now =
      ((prefillRounds db c ds now).1, (prefillRounds db c ds now).2,
        selectEarliest (prefillRounds db c ds now).1) := by
    unfold backlogCheck
    rw [hsel]
  rw [hbc]
  refine ⟨hlen, ?_, ?_⟩
  · rcases hb : (prefillRounds db c ds now).1.backlog with _ | ⟨a, t⟩
    · rw [hb] at hlen
      simp at hlen
    · simp [selectEarliest, hb]
  · intro n es
    exact Int.natCast_nonneg _

theorem c6_backlog_refill_witness :
    (backlogCheck emptyDB 0 (fun _ => ⟨0, 0, 0, 0⟩) 0).1.backlog.length = 30 ∧
    (backlogCheck emptyDB 0 (fun _ => ⟨0, 0, 0, 0⟩) 0).2.2.isSome = true ∧
    (∀ n es, (0 : ℤ) ≤ ((runLoop n es).1.backlog.length : ℤ)) :=
  c6_backlog_refill emptyDB 0 (fun _ => ⟨0, 0, 0, 0⟩) 0 rfl

lemma filter_ne_id_length :
    ∀ (l : List Round) (i : ℕ), (l.map Round.id).Nodup → i ∈ l.map Round.id →
      (l.filter (fun x => x.id != i)).length + 1 = l.length := by
  intro l i
  induction l with
  | nil =>
      intro _ hm
      simp at hm
  | cons a t ih =>
      intro hnd hmem
      rw [List.map_cons, List.nodup_cons] at hnd
      by_cases hai : a.id = i
      · have hfa : (a.id != i) = false := by simp [hai]
        have ht : t.filter (fun x => x.id != i) = t := by
          rw [List.filter_eq_self]
          intro x hx
          have hxi : x.id ≠ i := by
            intro hx2
            exact hnd.1 (hai ▸ hx2 ▸ List.mem_map_of_mem Round.id hx)
          simp [hxi]
        rw [List.filter_cons, hfa]
        simp [ht]
      · have hfa : (a.id != i) = true := by simp [hai]
        have hmem2 : i ∈ t.map Round.id := by
          rcases List.mem_cons.mp hmem with hh | hh
          · exact absurd hh.symm hai
          · exact hh
        rw [List.filter_cons, hfa]
        have := ih hnd.2 hmem2
        simp only [if_true, List.length_cons]
        omega

/-- C7: Settle removes exactly the completed round's backlog row, appends
exactly one log entry carrying its roundId and crashPoint, keeps only the
final 200 log entries (evicting from the front, i.e. the oldest first by
insertion sequence), and enqueues exactly one freshly generated replacement
round, so the backlog size is unchanged. -/
theorem c7_settle (db : DB) (r : Round) (c : ℕ) (d : GenDraws) (now : ℕ)
    (hnd : (db.backlog.map Round.id).Nodup) (hmem : r ∈ db.backlog) :
    (settle db r c d now).1.backlog =
      db.backlog.filter (fun x => x.id != r.id) ++
        [⟨db.nextRoundRowId, now, (generateCrashPoint c d).2, false⟩] ∧
    (settle db r c d now).1.backlog.length = db.backlog.length ∧
    (settle db r c d now).1.log =
      db.log.drop (db.log.length + 1 - 200) ++
        [⟨db.nextLogId, r.roundId, r.crashPoint⟩] ∧
    (settle db r c d now).1.log.length = min (db.log.length + 1) 200 ∧
    (settle db r c d now).1.log.getLast? =
      some ⟨db.nextLogId, r.roundId, r.crashPoint⟩ := by
  have hbl : (settle db r c d now).1.backlog =
      db.backlog.filter (fun x => x.id != r.id) ++
        [⟨db.nextRoundRowId, now, (generateCrashPoint c d).2, false⟩] := by
    simp [settle, deleteRound, insertLog, maintainLogLimit, insertRound]
  have hlog : (settle db r c d now).1.log =
      (db.log ++ [(⟨db.nextLogId, r.roundId, r.crashPoint⟩ : LogEntry)]).drop
        (db.log.length - 199) := by
    simp [settle, deleteRound, insertLog, maintainLogLimit, insertRound]
  have heq : db.log.length + 1 - 200 = db.log.length - 199 := by omega
  have hdrop : (db.log ++ [(⟨db.nextLogId, r.roundId, r.crashPoint⟩ : LogEntry)]).drop
      (db.log.length - 199) =
      db.log.drop (db.log.length - 199) ++
        [⟨db.nextLogId, r.roundId, r.crashPoint⟩] :=
    List.drop_append_of_le_length (by omega)
  refine ⟨hbl, ?_, ?_, ?_, ?_⟩
  · rw [hbl]
    have := filter_ne_id_length db.backlog r.id hnd (List.mem_map_of_mem Round.id hmem)
    simp only [List.length_append, List.length_cons, List.length_nil]
    omega
  · rw [hlog, heq, hdrop]
  · rw [hlog]
    simp only [List.length_drop, List.length_append, List.length_cons, List.length_nil]
    omega
  · rw [hlog, hdrop, List.getLast?_concat]

lemma countP_running_zero {l : List Round} (h : ∀ r ∈ l, r.isRunning = false) :
    l.countP (fun r => r.isRunning) = 0 := by
  rw [List.countP_eq_zero]
  intro a ha
  simp [h a ha]

lemma markRunning_count {db : DB} {i : ℕ}
    (hall : ∀ r ∈ db.backlog, r.isRunning = false)
    (hnd : (db.backlog.map Round.id).Nodup)
    (hmem : i ∈ db.backlog.map Round.id) :
    runningCount (markRunning db i) = 1 := by
  unfold runningCount markRunning
  simp only
  rw [List.countP_map]
  have hcg : ∀ r ∈ db.backlog,
      (((fun r => r.isRunning) ∘ (fun r =>
        if r.id = i then (⟨r.id, r.roundId, r.crashPoint, true⟩ : Round) else r)) r = true
        ↔ (r.id == i) = true) := by
    intro r hr
    by_cases hri : r.id = i
    · simp [Function.comp, hri]
    · simp [Function.comp, hri, hall r hr]
  rw [List.countP_congr hcg]
  have h1 : List.count i (db.backlog.map Round.id) = 1 :=
    List.count_eq_one_of_mem hnd hmem
  rw [List.count_eq_countP, List.countP_map] at h1
  exact h1

lemma ids_filter_mark (l : List Round) (i : ℕ) :
    ((l.map (fun r =>
        if r.id = i then (⟨r.id, r.roundId, r.crashPoint, true⟩ : Round) else r)).filter
      (fun x => x.id != i)).map Round.id =
    (l.map Round.id).filter (fun x => x != i) := by
  induction l with
  | nil => rfl
  | cons a t ih =>
      by_cases hai : a.id = i
      · simp only [List.map_cons, List.filter_cons, if_pos hai]
        simp only [hai]
        simpa using ih
      · simp only [List.map_cons, List.filter_cons, if_neg hai]
        have hb : (a.id != i) = true := by simp [hai]
        simp [hb, ih]

lemma filter_mark_not_running {l : List Round} {i : ℕ}
    (hall : ∀ r ∈ l, r.isRunning = false) :
    ∀ b ∈ (l.map (fun r =>
        if r.id = i then (⟨r.id, r.roundId, r.crashPoint, true⟩ : Round) else r)).filter
      (fun x => x.id != i), b.isRunning = false := by
  intro b hb
  obtain ⟨hbm, hbf⟩ := List.mem_filter.mp hb
  obtain ⟨x, hx, rfl⟩ := List.mem_map.mp hbm
  by_cases hxi : x.id = i
  · exfalso
    apply bne_iff_ne.mp hbf
    simp [if_pos hxi, hxi]
  · have hfx : (if x.id = i then (⟨x.id, x.roundId, x.crashPoint, true⟩ : Round) else x) = x :=
      if_neg hxi
    rw [hfx]
    exact hall x hx

lemma loopInv_insertRound {db : DB} (h : LoopInv db) (rid : ℕ) (cp : ℚ) :
    LoopInv (insertRound db rid cp) := by
  obtain ⟨h1, h2, h3⟩ := h
  unfold LoopInv insertRound
  simp only
  refine ⟨?_, ?_, ?_⟩
  · intro r hr
    rcases List.mem_append.mp hr with hr | hr
    · exact h1 r hr
    · rw [List.mem_singleton.mp hr]
  · rw [List.map_append]
    simp only [List.map_cons, List.map_nil]
    refine List.Nodup.append h2 (List.nodup_singleton _) ?_
    rw [List.disjoint_singleton]
    intro hmem
    obtain ⟨x, hx, hxe⟩ := List.mem_map.mp hmem
    have := h3 x hx
    omega
  · intro r hr
    rcases List.mem_append.mp hr with hr | hr
    · have := h3 r hr
      omega
    · rw [List.mem_singleton.mp hr]
      simp

lemma loopInv_prefillLoop (n : ℕ) :
    ∀ db c ds now i, LoopInv db → LoopInv (prefillLoop n db c ds now i).1 := by
  induction n with
  | zero => intro db c ds now i h; exact h
  | succ n ih =>
      intro db c ds now i h
      exact ih _ _ ds now (i + 1) (loopInv_insertRound h _ _)

lemma loopInv_prefillRounds {db : DB} (c : ℕ) (ds : ℕ → GenDraws) (now : ℕ)
    (h : LoopInv db) : LoopInv (prefillRounds db c ds now).1 := by
  unfold prefillRounds
  exact loopInv_prefillLoop _ db c ds now 0 h

lemma settle_mark_backlog (db : DB) (r : Round) (c : ℕ) (d : GenDraws) (now : ℕ) :
    (settle (markRunning db r.id) r c d now).1.backlog =
      ((db.backlog.map (fun x =>
          if x.id = r.id then (⟨x.id, x.roundId, x.crashPoint, true⟩ : Round) else x)).filter
        (fun x => x.id != r.id)) ++
      [⟨db.nextRoundRowId, now, (generateCrashPoint c d).2, false⟩] := by
  simp [settle, deleteRound, insertLog, maintainLogLimit, insertRound, markRunning]

lemma settle_mark_nextRowId (db : DB) (r : Round) (c : ℕ) (d : GenDraws) (now : ℕ) :
    (settle (markRunning db r.id) r c d now).1.nextRoundRowId = db.nextRoundRowId + 1 := by
  simp [settle, deleteRound, insertLog, maintainLogLimit, insertRound, markRunning]

lemma loopInv_settle_mark {db : DB} (r : Round) (c : ℕ) (d : GenDraws) (now : ℕ)
    (h : LoopInv db) : LoopInv (settle (markRunning db r.id) r c d now).1 := by
  obtain ⟨h1, h2, h3⟩ := h
  refine ⟨?_, ?_, ?_⟩
  · rw [settle_mark_backlog]
    intro b hb
    rcases List.mem_append.mp hb with hb | hb
    · exact filter_mark_not_running h1 b hb
    · rw [List.mem_singleton.mp hb]
  · rw [settle_mark_backlog, List.map_append, ids_filter_mark]
    simp only [List.map_cons, List.map_nil]
    refine List.Nodup.append ((List.filter_sublist _).nodup h2)
      (List.nodup_singleton _) ?_
    rw [List.disjoint_singleton]
    intro hmem
    have hmem2 := (List.filter_sublist (db.backlog.map Round.id)).mem hmem
    obtain ⟨x, hx, hxe⟩ := List.mem_map.mp hmem2
    have := h3 x hx
    omega
  · rw [settle_mark_backlog, settle_mark_nextRowId]
    intro b hb
    rcases List.mem_append.mp hb with hb | hb
    · have hid : b.id ∈ ((db.backlog.map (fun x =>
          if x.id = r.id then (⟨x.id, x.roundId, x.crashPoint, true⟩ : Round) else x)).filter
        (fun x => x.id != r.id)).map Round.id := List.mem_map_of_mem Round.id hb
      rw [ids_filter_mark] at hid
      have hid2 := (List.filter_sublist (db.backlog.map Round.id)).mem hid
      obtain ⟨x, hx, hxe⟩ := List.mem_map.mp hid2
      have := h3 x hx
      omega
    · rw [List.mem_singleton.mp hb]
      simp

lemma loopInv_runLoop (n : ℕ) (es : ℕ → Env) : LoopInv (runLoop n es).1 := by
  induction n with
  | zero =>
      show LoopInv emptyDB
      exact ⟨by simp [emptyDB], by simp [emptyDB], by simp [emptyDB]⟩
  | succ n ih =>
      show LoopInv (loopIter (runLoop n es).1 (runLoop n es).2 (es n)).1
      unfold loopIter
      rcases hsel : selectEarliest (runLoop n es).1 with _ | r
      · simp only [hsel]
        exact loopInv_prefillRounds _ _ _ ih
      · simp only [hsel]
        exact loopInv_settle_mark r _ _ _ ih

/-- C8: starting from empty tables, the between-iteration backlog state
always has no running round, so zero rows are marked running at every
BacklogCheck (also right after a reactive refill) and at every
InterRoundPause (the settle step deletes the running row and inserts the
replacement unmarked), while marking the pulled round makes exactly one
running row during LiveProgression. -/
theorem c8_single_running :
    (∀ n es, LoopInv (runLoop n es).1) ∧
    (∀ (db : DB) (c : ℕ) (e : Env), LoopInv db →
      runningCount db = 0 ∧
      (∀ r, selectEarliest db = some r →
        runningCount (roundStart db r).1 = 1 ∧
        runningCount (settle (roundStart db r).1 r c e.settleDraw e.settleNow).1 = 0) ∧
      (selectEarliest db = none →
        runningCount (prefillRounds db c e.draws e.fillNow).1 = 0)) := by
  constructor
  · exact loopInv_runLoop
  · intro db c e h
    obtain ⟨h1, h2, h3⟩ := h
    refine ⟨countP_running_zero h1, ?_, ?_⟩
    · intro r hr
      have hmem : r ∈ db.backlog := by
        unfold selectEarliest at hr
        exact List.mem_of_mem_head? (Option.mem_def.mpr hr)
      constructor
      · show runningCount (markRunning db r.id) = 1
        exact markRunning_count h1 h2 (List.mem_map_of_mem Round.id hmem)
      · show runningCount (settle (markRunning db r.id) r c e.settleDraw e.settleNow).1 = 0
        unfold runningCount
        rw [settle_mark_backlog, List.countP_append]
        have hz1 := countP_running_zero (filter_mark_not_running (i := r.id) h1)
        rw [hz1]
        simp
    · intro hnone
      have := loopInv_prefillRounds c e.draws e.fillNow ⟨h1, h2, h3⟩
      exact countP_running_zero this.1

/-- A one-row backlog used as concrete input for witnesses. -/
def sampleRound : Round := ⟨1, 100, 2, false⟩

def sampleDB : DB := ⟨[sampleRound], 2, [], 1⟩

theorem c8_single_running_witness :
    runningCount sampleDB = 0 :=
  (c8_single_running.2 sampleDB 0 ⟨fun _ => ⟨0, 0, 0, 0⟩, 0, ⟨0, 0, 0, 0⟩, 0⟩
    (by refine ⟨?_, ?_, ?_⟩ <;> simp [sampleDB, sampleRound])).1

theorem c7_settle_witness :
    (settle sampleDB sampleRound 0 ⟨0, 0, 0, 0⟩ 7).1.backlog =
      sampleDB.backlog.filter (fun x => x.id != sampleRound.id) ++
        [⟨sampleDB.nextRoundRowId, 7, (generateCrashPoint 0 ⟨0, 0, 0, 0⟩).2, false⟩] ∧
    (settle sampleDB sampleRound 0 ⟨0, 0, 0, 0⟩ 7).1.backlog.length =
      sampleDB.backlog.length ∧
    (settle sampleDB sampleRound 0 ⟨0, 0, 0, 0⟩ 7).1.log =
      sampleDB.log.drop (sampleDB.log.length + 1 - 200) ++
        [⟨sampleDB.nextLogId, sampleRound.roundId, sampleRound.crashPoint⟩] ∧
    (settle sampleDB sampleRound 0 ⟨0, 0, 0, 0⟩ 7).1.log.length =
      min (sampleDB.log.length + 1) 200 ∧
    (settle sampleDB sampleRound 0 ⟨0, 0, 0, 0⟩ 7).1.log.getLast? =
      some ⟨sampleDB.nextLogId, sampleRound.roundId, sampleRound.crashPoint⟩ :=
  c7_settle sampleDB sampleRound 0 ⟨0, 0, 0, 0⟩ 7
    (by simp [sampleDB, sampleRound])
    (by simp [sampleDB])

/-- C9: the initData snapshot sent to a newly connected observer carries the
roundId and crashPoint of the current round when one is active and null
values otherwise, the at most 20 most recent log entries ordered most
recent first, and the live score at connection time. -/
theorem c9_init_data (db : DB) (cur : Option Round) (s : ℚ)
    (hsorted : List.Pairwise (fun a b => a.id < b.id) db.log) :
    (onConnection db cur s).roundId = cur.map Round.roundId ∧
    (onConnection db cur s).crashPoint = cur.map Round.crashPoint ∧
    (onConnection db cur s).liveScore = s ∧
    (onConnection db cur s).previousRounds = db.log.reverse.take 20 ∧
    (onConnection db cur s).previousRounds.length ≤ 20 ∧
    List.Pairwise (fun a b => b.id < a.id) (onConnection db cur s).previousRounds ∧
    (cur = none → (onConnection db cur s).roundId = none ∧
      (onConnection db cur s).crashPoint = none) := by
  refine ⟨rfl, rfl, rfl, rfl, ?_, ?_, ?_⟩
  · show (db.log.reverse.take 20).length ≤ 20
    rw [List.length_take]
    exact min_le_left _ _
  · show List.Pairwise (fun a b => b.id < a.id) (db.log.reverse.take 20)
    refine List.Pairwise.sublist (List.take_sublist _ _) ?_
    rw [List.pairwise_reverse]
    exact hsorted
  · intro hc
    subst hc
    exact ⟨rfl, rfl⟩

/-- A two-entry log in ascending insertion order, for the C9 witness. -/
def sampleLogDB : DB := ⟨[], 1, [⟨1, 7, 2⟩, ⟨2, 8, 3⟩], 3⟩

theorem c9_init_data_witness :
    (onConnection sampleLogDB (some sampleRound) (6/5)).roundId =
      (some sampleRound).map Round.roundId ∧
    (onConnection sampleLogDB (some sampleRound) (6/5)).crashPoint =
      (some sampleRound).map Round.crashPoint ∧
    (onConnection sampleLogDB (some sampleRound) (6/5)).liveScore = 6/5 ∧
    (onConnection sampleLogDB (some sampleRound) (6/5)).previousRounds =
      sampleLogDB.log.reverse.take 20 ∧
    (onConnection sampleLogDB (some sampleRound) (6/5)).previousRounds.length ≤ 20 ∧
    List.Pairwise (fun a b => b.id < a.id)
      (onConnection sampleLogDB (some sampleRound) (6/5)).previousRounds ∧
    (some sampleRound = none →
      (onConnection sampleLogDB (some sampleRound) (6/5)).roundId = none ∧
      (onConnection sampleLogDB (some sampleRound) (6/5)).crashPoint = none) :=
  c9_init_data sampleLogDB (some sampleRound) (6/5) (by decide)
